import Mathlib

/-!
Shallow embedding of the three-body simulation (`src/main.rs`).

The Rust code works on `f32`; the embedding idealises `f32` as `ℝ` and
`f32::sqrt` as `Real.sqrt`.  Machine-level float phenomena (NaN, infinity,
rounding) have no counterpart here; the claims about them are read as the
corresponding statements of real arithmetic (totality, exact values).
All structure — field names, the two passes of `step`, the index loops of
`compute_accelerations`, the accumulator loop of `update` — follows the
source line by line.
-/

noncomputable section

/-- `Vec2` from `src/main.rs`: a 2-D vector with `f32` components,
modelled with real components. -/
structure Vec2 where
  x : ℝ
  y : ℝ

theorem Vec2.ext (a b : Vec2) (hx : a.x = b.x) (hy : a.y = b.y) : a = b := by
  cases a; cases b; cases hx; cases hy; rfl

namespace Vec2

/-- `Vec2::new`. -/
def new (x y : ℝ) : Vec2 := ⟨x, y⟩

/-- `Vec2::magnitude`: `(x*x + y*y).sqrt()`. -/
def magnitude (v : Vec2) : ℝ := Real.sqrt (v.x * v.x + v.y * v.y)

/-- `impl Add for Vec2`. -/
instance : Add Vec2 := ⟨fun a b => ⟨a.x + b.x, a.y + b.y⟩⟩

/-- `impl Sub for Vec2`. -/
instance : Sub Vec2 := ⟨fun a b => ⟨a.x - b.x, a.y - b.y⟩⟩

/-- `impl Mul<f32> for Vec2`: scaling by a scalar. -/
instance : HMul Vec2 ℝ Vec2 := ⟨fun a k => ⟨a.x * k, a.y * k⟩⟩

/-- `impl Div<f32> for Vec2`: component-wise division by a scalar. -/
instance : HDiv Vec2 ℝ Vec2 := ⟨fun a k => ⟨a.x / k, a.y / k⟩⟩

/-- `Vec2::normalize`: divide by the magnitude unless it is exactly zero,
in which case the vector is returned unchanged. -/
def normalize (v : Vec2) : Vec2 :=
  let mag := v.magnitude
  if mag = 0 then v else v / mag

instance : Zero Vec2 := ⟨⟨0, 0⟩⟩

theorem add_def (a b : Vec2) : a + b = ⟨a.x + b.x, a.y + b.y⟩ := rfl
theorem sub_def (a b : Vec2) : a - b = ⟨a.x - b.x, a.y - b.y⟩ := rfl
theorem smul_def (a : Vec2) (k : ℝ) : a * k = ⟨a.x * k, a.y * k⟩ := rfl
theorem div_def (a : Vec2) (k : ℝ) : a / k = ⟨a.x / k, a.y / k⟩ := rfl
theorem zero_def : (0 : Vec2) = ⟨0, 0⟩ := rfl

instance : AddCommMonoid Vec2 where
  add_assoc a b c := by
    apply Vec2.ext <;> simp [add_def] <;> ring
  zero_add a := by
    apply Vec2.ext <;> simp [add_def, zero_def]
  add_zero a := by
    apply Vec2.ext <;> simp [add_def, zero_def]
  add_comm a b := by
    apply Vec2.ext <;> simp [add_def] <;> ring
  nsmul := nsmulRec

theorem magnitude_nonneg (v : Vec2) : 0 ≤ v.magnitude := Real.sqrt_nonneg _

theorem magnitude_eq_zero_iff (v : Vec2) : v.magnitude = 0 ↔ v = ⟨0, 0⟩ := by
  unfold magnitude
  rw [Real.sqrt_eq_zero (add_nonneg (mul_self_nonneg _) (mul_self_nonneg _))]
  constructor
  · intro h
    have hx : v.x = 0 ∧ v.y = 0 := by
      constructor <;> nlinarith [sq_nonneg v.x, sq_nonneg v.y]
    exact Vec2.ext _ _ hx.1 hx.2
  · intro h; rw [h]; ring

theorem magnitude_smul (v : Vec2) (k : ℝ) :
    (v * k).magnitude = v.magnitude * |k| := by
  unfold magnitude
  rw [smul_def]
  have : v.x * k * (v.x * k) + v.y * k * (v.y * k)
      = (v.x * v.x + v.y * v.y) * (k * k) := by ring
  rw [this, Real.sqrt_mul (add_nonneg (mul_self_nonneg _) (mul_self_nonneg _)),
    Real.sqrt_mul_self_eq_abs]

theorem magnitude_normalize (v : Vec2) :
    (normalize v).magnitude = if v.magnitude = 0 then 0 else 1 := by
  unfold normalize
  by_cases h : v.magnitude = 0
  · simp [h]
  · have hpos : 0 < v.magnitude := lt_of_le_of_ne (magnitude_nonneg v) (Ne.symm h)
    have hdiv : v / v.magnitude = v * (v.magnitude)⁻¹ := by
      apply Vec2.ext <;> simp [div_def, smul_def, div_eq_mul_inv]
    simp only [h, if_false]
    rw [hdiv, magnitude_smul, abs_of_pos (by positivity),
      mul_inv_cancel₀ h]

theorem magnitude_normalize_le_one (v : Vec2) :
    (normalize v).magnitude ≤ 1 := by
  rw [magnitude_normalize]
  split <;> norm_num

theorem magnitude_neg_sub (a b : Vec2) :
    (a - b).magnitude = (b - a).magnitude := by
  unfold magnitude
  rw [sub_def, sub_def]
  ring_nf

theorem sub_eq_zero_iff (a b : Vec2) : a - b = ⟨0, 0⟩ ↔ b - a = ⟨0, 0⟩ := by
  rw [sub_def, sub_def]
  constructor <;> intro h <;>
    · have hx := congrArg Vec2.x h
      have hy := congrArg Vec2.y h
      simp at hx hy
      apply Vec2.ext <;> simp <;> linarith

end Vec2

/-- `const G: f32 = 1.0`. -/
def G : ℝ := 1.0

/-- Rendering colour (`ggez::graphics::Color`, built from `from_rgb`);
only carried along, never touched by the physics. -/
structure Color where
  r : ℕ
  g : ℕ
  b : ℕ
deriving DecidableEq

/-- `struct Body`. -/
structure Body where
  pos : Vec2
  vel : Vec2
  mass : ℝ
  color : Color
  trail : List Vec2

instance : Inhabited Vec2 := ⟨⟨0, 0⟩⟩
instance : Inhabited Body := ⟨⟨⟨0, 0⟩, ⟨0, 0⟩, 0, ⟨0, 0, 0⟩, []⟩⟩

/-- `struct Simulation`. -/
structure Simulation where
  bodies : List Body
  dt : ℝ
  accumulator : ℝ

namespace Simulation

/-- `Simulation::new`: the hard-coded three-body initial configuration. -/
def new : Simulation where
  bodies :=
    [ { pos := Vec2.new (-100.0) 0.0, vel := Vec2.new 0.0 0.5, mass := 70.0,
        color := ⟨255, 0, 0⟩, trail := [] },
      { pos := Vec2.new 0.0 0.0, vel := Vec2.new 0.0 0.0, mass := 100.0,
        color := ⟨0, 255, 0⟩, trail := [] },
      { pos := Vec2.new 100.0 0.0, vel := Vec2.new 0.0 (-0.50), mass := 30.0,
        color := ⟨0, 0, 255⟩, trail := [] } ]
  dt := 0.01
  accumulator := 0.0

/-- The clamped distance used in `compute_accelerations`:
`diff.magnitude().max(0.1)` where `diff = bodies[j].pos - bodies[i].pos`. -/
def dist (bi bj : Body) : ℝ := max ((bj.pos - bi.pos).magnitude) 0.1

/-- One inner-loop term of `compute_accelerations`: the contribution of
body `bj` to the acceleration of body `bi`,
`diff.normalize() * (G * bodies[j].mass / (distance * distance))`. -/
def pairContribution (bi bj : Body) : Vec2 :=
  let diff := bj.pos - bi.pos
  diff.normalize * (G * bj.mass / (dist bi bj * dist bi bj))

/-- `Simulation::compute_accelerations`: the doubly nested index loop,
skipping `i == j`, accumulating into `acc[i]` (initialised to the zero
vector) in increasing `j` order. -/
def compute_accelerations (s : Simulation) : List Vec2 :=
  let n := s.bodies.length
  (List.range n).map (fun i =>
    (List.range n).foldl
      (fun a j =>
        if i = j then a
        else a + pairContribution (s.bodies.getD i default) (s.bodies.getD j default))
      (Vec2.new 0.0 0.0))

/-- First loop of `Simulation::step`: update every position using the old
accelerations, `pos + vel * dt + acc_old[i] * (0.5 * dt * dt)`. -/
def stepPositions (s : Simulation) (accOld : List Vec2) : Simulation :=
  { s with bodies := s.bodies.mapIdx (fun i body =>
      { body with pos := body.pos + body.vel * s.dt
          + accOld.getD i default * (0.5 * s.dt * s.dt) }) }

/-- `Simulation::step`: velocity Verlet — update positions from the old
accelerations, recompute accelerations, update velocities with the average,
and push the (already final) position onto the trail. -/
def step (s : Simulation) : Simulation :=
  let accOld := compute_accelerations s
  let s1 := stepPositions s accOld
  let accNew := compute_accelerations s1
  { s1 with bodies := s1.bodies.mapIdx (fun i body =>
      { body with
          vel := body.vel + (accOld.getD i default + accNew.getD i default) * (0.5 * s.dt),
          trail := body.trail ++ [body.pos] }) }

end Simulation

namespace Simulation

theorem step_dt (s : Simulation) : (step s).dt = s.dt := rfl

theorem step_accumulator (s : Simulation) : (step s).accumulator = s.accumulator := rfl

/-- The `while self.accumulator >= self.dt` loop of `EventHandler::update`:
step, then subtract `dt` from the accumulator.  The positivity of `dt`
(it is the constant `0.01` in this program) is carried as a hypothesis,
since it is what makes the loop terminate. -/
def updateLoop (s : Simulation) (hdt : 0 < s.dt) : Simulation :=
  if _h : s.dt ≤ s.accumulator then
    updateLoop { step s with accumulator := (step s).accumulator - (step s).dt } hdt
  else s
termination_by Nat.floor (s.accumulator / s.dt)
decreasing_by
  simp only [step_dt, step_accumulator]
  have h1 : (s.accumulator - s.dt) / s.dt = s.accumulator / s.dt - 1 := by
    field_simp
  have hx : (1 : ℝ) ≤ s.accumulator / s.dt := (one_le_div hdt).mpr _h
  rw [h1]
  have h2 : (Nat.floor (s.accumulator / s.dt - 1) : ℝ) ≤ s.accumulator / s.dt - 1 :=
    Nat.floor_le (by linarith)
  have h3 : ((Nat.floor (s.accumulator / s.dt - 1) + 1 : ℕ) : ℝ) ≤ s.accumulator / s.dt := by
    push_cast
    linarith
  exact Nat.lt_of_succ_le (Nat.le_floor h3)

/-- `EventHandler::update`: scale the elapsed wall-clock time by the fixed
speed factor `500.0`, add it to the accumulator, and drain whole steps. -/
def update (s : Simulation) (delta : ℝ) (hdt : 0 < s.dt) : Simulation :=
  updateLoop { s with accumulator := s.accumulator + delta * 500.0 } hdt

theorem updateLoop_spec :
    ∀ (fuel : ℕ) (s : Simulation) (hdt : 0 < s.dt),
      Nat.floor (s.accumulator / s.dt) ≤ fuel →
      (updateLoop s hdt).dt = s.dt ∧ (updateLoop s hdt).accumulator < s.dt := by
  intro fuel
  induction fuel with
  | zero =>
    intro s hdt hf
    rw [updateLoop]
    split
    · exfalso
      have hx : (1 : ℝ) ≤ s.accumulator / s.dt := by
        rw [one_le_div hdt]
        assumption
      have : 1 ≤ Nat.floor (s.accumulator / s.dt) :=
        Nat.le_floor (by exact_mod_cast hx)
      omega
    · exact ⟨rfl, by linarith [not_le.mp (by assumption)]⟩
  | succ fuel ih =>
    intro s hdt hf
    rw [updateLoop]
    split
    · have hcond : s.dt ≤ s.accumulator := by assumption
      have hmeas :
          Nat.floor (((step s).accumulator - (step s).dt) / s.dt) < Nat.floor (s.accumulator / s.dt) := by
        simp only [step_dt, step_accumulator]
        have h1 : (s.accumulator - s.dt) / s.dt = s.accumulator / s.dt - 1 := by
          field_simp
        have hx : (1 : ℝ) ≤ s.accumulator / s.dt := (one_le_div hdt).mpr hcond
        rw [h1]
        have h2 : (Nat.floor (s.accumulator / s.dt - 1) : ℝ) ≤ s.accumulator / s.dt - 1 :=
          Nat.floor_le (by linarith)
        have h3 : ((Nat.floor (s.accumulator / s.dt - 1) + 1 : ℕ) : ℝ) ≤ s.accumulator / s.dt := by
          push_cast
          linarith
        exact Nat.lt_of_succ_le (Nat.le_floor h3)
      have := ih { step s with accumulator := (step s).accumulator - (step s).dt } hdt
        (by
          have : Nat.floor (((step s).accumulator - (step s).dt) / s.dt) ≤ fuel := by omega
          simpa [step_dt] using this)
      simpa [step_dt] using this
    · exact ⟨rfl, by linarith [not_le.mp (by assumption)]⟩

end Simulation

/-- `getD` of a `map` over `List.range` at an in-range index. -/
theorem getD_map_range {α : Type} (n i : ℕ) (f : ℕ → α) (d : α) (h : i < n) :
    ((List.range n).map f).getD i d = f i := by
  rw [List.getD_eq_getElem?_getD]
  simp [List.getElem?_map, List.getElem?_range, h]

/-- `getD` of `mapIdx` at an in-range index. -/
theorem getD_mapIdx {α : Type} (l : List α) (f : ℕ → α → α) (i : ℕ) (d : α)
    (h : i < l.length) :
    (l.mapIdx f).getD i d = f i (l.getD i d) := by
  rw [List.getD_eq_getElem?_getD, List.getD_eq_getElem?_getD, List.getElem?_mapIdx]
  simp [List.getElem?_eq_getElem h]

/-- A fold that skips index `i` and adds `f j` for every other index equals
the sum of `f` over the elements different from `i`. -/
theorem foldl_skip_eq_sum {M : Type} [AddCommMonoid M] (i : ℕ) (f : ℕ → M) :
    ∀ (l : List ℕ) (z : M),
      l.foldl (fun a j => if i = j then a else a + f j) z
        = z + ((l.filter (fun j => decide ¬j = i)).map f).sum := by
  intro l
  induction l with
  | nil => intro z; simp
  | cons a l ih =>
    intro z
    by_cases h : i = a
    · subst h
      simp [List.foldl_cons, List.filter_cons, ih]
    · have h2 : a ≠ i := Ne.symm h
      simp [List.foldl_cons, List.filter_cons, h, h2, ih, add_assoc]

/-- `mapIdx` with a field-preserving function commutes away under `map`. -/
theorem map_mapIdx_eq {α β : Type} (l : List α) (f : ℕ → α → α) (g : α → β)
    (hf : ∀ i a, g (f i a) = g a) : (l.mapIdx f).map g = l.map g := by
  apply List.ext_getElem
  · simp
  · intro i h1 h2
    simp [List.getElem_mapIdx, hf]

namespace Simulation

theorem stepPositions_length (s : Simulation) (accOld : List Vec2) :
    (stepPositions s accOld).bodies.length = s.bodies.length := by
  simp [stepPositions]

theorem step_length (s : Simulation) :
    (step s).bodies.length = s.bodies.length := by
  simp [step, stepPositions]

theorem step_map_mass (s : Simulation) :
    (step s).bodies.map Body.mass = s.bodies.map Body.mass := by
  show ((s.bodies.mapIdx _).mapIdx _).map Body.mass = _
  rw [map_mapIdx_eq, map_mapIdx_eq] <;> intro i a <;> rfl

theorem step_map_color (s : Simulation) :
    (step s).bodies.map Body.color = s.bodies.map Body.color := by
  show ((s.bodies.mapIdx _).mapIdx _).map Body.color = _
  rw [map_mapIdx_eq, map_mapIdx_eq] <;> intro i a <;> rfl

end Simulation

/-- Positivity of every mass transfers from the list of masses to the bodies. -/
theorem forall_mass_pos_of_map {l : List Body} {ms : List ℝ}
    (h : l.map Body.mass = ms) (hms : List.Forall (fun m => 0 < m) ms) :
    List.Forall (fun b => 0 < b.mass) l := by
  induction l generalizing ms with
  | nil => exact trivial
  | cons a l ih =>
    cases ms with
    | nil => simp at h
    | cons m ms =>
      simp only [List.map_cons, List.cons.injEq] at h
      rw [List.forall_cons] at hms ⊢
      exact ⟨h.1 ▸ hms.1, ih h.2 hms.2⟩

theorem Vec2.normalize_of_magnitude_zero (v : Vec2) (h : v.magnitude = 0) :
    v.normalize = v := by
  unfold Vec2.normalize
  simp [h]

theorem Vec2.magnitude_zero_vec : (⟨0, 0⟩ : Vec2).magnitude = 0 := by
  rw [Vec2.magnitude_eq_zero_iff]

/-- C3: `normalize` applied to the zero vector returns the zero vector
unchanged, and more generally for every vector of magnitude exactly `0.0`
`normalize` returns its argument instead of dividing.  (In the real-number
model the result is by construction a finite real vector.) -/
theorem claim_C3_normalize_zero :
    Vec2.normalize ⟨0, 0⟩ = (⟨0, 0⟩ : Vec2) ∧
    ∀ v : Vec2, v.magnitude = 0 → v.normalize = v :=
  ⟨Vec2.normalize_of_magnitude_zero _ Vec2.magnitude_zero_vec,
    Vec2.normalize_of_magnitude_zero⟩

theorem claim_C3_witness :
    Vec2.magnitude ⟨0, 0⟩ = 0 ∧ Vec2.normalize ⟨0, 0⟩ = (⟨0, 0⟩ : Vec2) :=
  ⟨Vec2.magnitude_zero_vec, claim_C3_normalize_zero.2 ⟨0, 0⟩ Vec2.magnitude_zero_vec⟩

/-- C4: every pairwise contribution of body `bj` to body `bi` (in particular
when the two bodies coincide) has magnitude at most `G * bj.mass / 0.1²`,
because the softening floor clamps the distance at `0.1`.  The mass
hypothesis is the spec's standing invariant `mass > 0` (only `0 ≤` is
needed).  In the real-number model the bound also shows the value is a
plain finite real. -/
theorem claim_C4_softening_bound (bi bj : Body) (hm : 0 ≤ bj.mass) :
    (Simulation.pairContribution bi bj).magnitude ≤ G * bj.mass / (0.1 * 0.1) := by
  unfold Simulation.pairContribution
  rw [Vec2.magnitude_smul]
  have hG : (0 : ℝ) ≤ G := by norm_num [G]
  have hd : (0.1 : ℝ) ≤ Simulation.dist bi bj := le_max_right _ _
  have hd0 : (0 : ℝ) < Simulation.dist bi bj := lt_of_lt_of_le (by norm_num) hd
  have hnum : (0 : ℝ) ≤ G * bj.mass := mul_nonneg hG hm
  have hden : (0 : ℝ) < Simulation.dist bi bj * Simulation.dist bi bj := mul_pos hd0 hd0
  have hE : (0 : ℝ) ≤ G * bj.mass / (Simulation.dist bi bj * Simulation.dist bi bj) :=
    div_nonneg hnum (le_of_lt hden)
  have habs : |G * bj.mass / (Simulation.dist bi bj * Simulation.dist bi bj)|
      = G * bj.mass / (Simulation.dist bi bj * Simulation.dist bi bj) := abs_of_nonneg hE
  rw [habs]
  have h1 : ((bj.pos - bi.pos).normalize).magnitude ≤ 1 :=
    Vec2.magnitude_normalize_le_one _
  have h2 : G * bj.mass / (Simulation.dist bi bj * Simulation.dist bi bj)
      ≤ G * bj.mass / (0.1 * 0.1) :=
    div_le_div_of_nonneg_left hnum (by norm_num)
      (mul_le_mul hd hd (by norm_num) (le_of_lt hd0))
  calc ((bj.pos - bi.pos).normalize).magnitude
        * (G * bj.mass / (Simulation.dist bi bj * Simulation.dist bi bj))
      ≤ 1 * (G * bj.mass / (Simulation.dist bi bj * Simulation.dist bi bj)) :=
        mul_le_mul_of_nonneg_right h1 hE
    _ = G * bj.mass / (Simulation.dist bi bj * Simulation.dist bi bj) := one_mul _
    _ ≤ G * bj.mass / (0.1 * 0.1) := h2

theorem claim_C4_witness :
    (0 : ℝ) ≤ (100.0 : ℝ) ∧
    (Simulation.pairContribution
        ⟨Vec2.new 5.0 5.0, Vec2.new 0.0 0.0, 100.0, ⟨1, 2, 3⟩, []⟩
        ⟨Vec2.new 5.0 5.0, Vec2.new 0.0 0.0, 100.0, ⟨1, 2, 3⟩, []⟩).magnitude
      ≤ G * (100.0 : ℝ) / (0.1 * 0.1) :=
  ⟨by norm_num,
    claim_C4_softening_bound
      ⟨Vec2.new 5.0 5.0, Vec2.new 0.0 0.0, 100.0, ⟨1, 2, 3⟩, []⟩
      ⟨Vec2.new 5.0 5.0, Vec2.new 0.0 0.0, 100.0, ⟨1, 2, 3⟩, []⟩
      (by norm_num)⟩

/-- C5: the acceleration computed for body `i` is exactly the sum of the
pairwise contributions of the bodies `j ≠ i`, in index order; no term with
`j = i` is included. -/
theorem claim_C5_no_self_interaction (s : Simulation) (i : ℕ)
    (h : i < s.bodies.length) :
    (s.compute_accelerations).getD i default
      = (((List.range s.bodies.length).filter (fun j => decide ¬j = i)).map
          (fun j => Simulation.pairContribution (s.bodies.getD i default)
            (s.bodies.getD j default))).sum := by
  unfold Simulation.compute_accelerations
  rw [getD_map_range _ _ _ _ h, foldl_skip_eq_sum]
  have hz : Vec2.new 0.0 0.0 = (0 : Vec2) := by
    apply Vec2.ext <;> simp [Vec2.new, Vec2.zero_def] <;> norm_num
  rw [hz, zero_add]

theorem claim_C5_witness :
    0 < Simulation.new.bodies.length ∧
    (Simulation.new.compute_accelerations).getD 0 default
      = (((List.range Simulation.new.bodies.length).filter (fun j => decide ¬j = 0)).map
          (fun j => Simulation.pairContribution (Simulation.new.bodies.getD 0 default)
            (Simulation.new.bodies.getD j default))).sum :=
  ⟨by simp [Simulation.new],
    claim_C5_no_self_interaction Simulation.new 0 (by simp [Simulation.new])⟩

/-- C6: Newton's third law at the level of magnitudes — the contribution of
`bj` to `bi` scaled by `bi.mass` equals the contribution of `bi` to `bj`
scaled by `bj.mass`.  The equality is exact even below the softening floor,
because both directions clamp the same distance. -/
theorem claim_C6_newton_third_law (bi bj : Body)
    (hmi : 0 ≤ bi.mass) (hmj : 0 ≤ bj.mass) :
    (Simulation.pairContribution bi bj).magnitude * bi.mass
      = (Simulation.pairContribution bj bi).magnitude * bj.mass := by
  unfold Simulation.pairContribution
  rw [Vec2.magnitude_smul, Vec2.magnitude_smul,
    Vec2.magnitude_normalize, Vec2.magnitude_normalize]
  have hdist : Simulation.dist bi bj = Simulation.dist bj bi := by
    unfold Simulation.dist
    rw [Vec2.magnitude_neg_sub]
  have hG : (0 : ℝ) ≤ G := by norm_num [G]
  by_cases h : (bj.pos - bi.pos).magnitude = 0
  · have h2 : (bi.pos - bj.pos).magnitude = 0 := by
      rw [Vec2.magnitude_neg_sub]
      exact h
    simp [h, h2]
  · have h2 : ¬(bi.pos - bj.pos).magnitude = 0 := by
      rw [Vec2.magnitude_neg_sub]
      exact h
    rw [if_neg h, if_neg h2, hdist]
    rw [abs_div, abs_div, abs_of_nonneg (mul_nonneg hG hmj),
      abs_of_nonneg (mul_nonneg hG hmi),
      abs_of_nonneg (mul_self_nonneg (Simulation.dist bj bi))]
    ring

theorem claim_C6_witness :
    (0 : ℝ) ≤ (70.0 : ℝ) ∧ (0 : ℝ) ≤ (30.0 : ℝ) ∧
    (Simulation.pairContribution
          ⟨Vec2.new (-100.0) 0.0, Vec2.new 0.0 0.5, 70.0, ⟨255, 0, 0⟩, []⟩
          ⟨Vec2.new 100.0 0.0, Vec2.new 0.0 (-0.5), 30.0, ⟨0, 0, 255⟩, []⟩).magnitude
        * (70.0 : ℝ)
      = (Simulation.pairContribution
          ⟨Vec2.new 100.0 0.0, Vec2.new 0.0 (-0.5), 30.0, ⟨0, 0, 255⟩, []⟩
          ⟨Vec2.new (-100.0) 0.0, Vec2.new 0.0 0.5, 70.0, ⟨255, 0, 0⟩, []⟩).magnitude
        * (30.0 : ℝ) :=
  ⟨by norm_num, by norm_num,
    claim_C6_newton_third_law
      ⟨Vec2.new (-100.0) 0.0, Vec2.new 0.0 0.5, 70.0, ⟨255, 0, 0⟩, []⟩
      ⟨Vec2.new 100.0 0.0, Vec2.new 0.0 (-0.5), 30.0, ⟨0, 0, 255⟩, []⟩
      (by norm_num) (by norm_num)⟩

/-- C8: the engine never divides a scalar into a vector by zero —
`normalize` either returns its argument untouched or divides by a nonzero
magnitude, and the denominator `distance * distance` in the acceleration
formula is clamped to at least `0.1² = 0.01`, hence nonzero. -/
theorem claim_C8_no_division_by_zero :
    (∀ v : Vec2, v.normalize = v ∨
      (v.magnitude ≠ 0 ∧ v.normalize = v / v.magnitude)) ∧
    ∀ bi bj : Body,
      (0.01 : ℝ) ≤ Simulation.dist bi bj * Simulation.dist bi bj ∧
      Simulation.dist bi bj * Simulation.dist bi bj ≠ 0 := by
  constructor
  · intro v
    by_cases h : v.magnitude = 0
    · exact Or.inl (Vec2.normalize_of_magnitude_zero v h)
    · refine Or.inr ⟨h, ?_⟩
      unfold Vec2.normalize
      simp [h]
  · intro bi bj
    have hd : (0.1 : ℝ) ≤ Simulation.dist bi bj := le_max_right _ _
    constructor
    · nlinarith
    · nlinarith

theorem claim_C8_witness :
    (Vec2.normalize ⟨3.0, 4.0⟩ = (⟨3.0, 4.0⟩ : Vec2) ∨
      ((⟨3.0, 4.0⟩ : Vec2).magnitude ≠ 0 ∧
        Vec2.normalize ⟨3.0, 4.0⟩ = (⟨3.0, 4.0⟩ : Vec2) / (⟨3.0, 4.0⟩ : Vec2).magnitude)) ∧
    ((0.01 : ℝ) ≤ Simulation.dist
          ⟨Vec2.new 0.0 0.0, Vec2.new 0.0 0.0, 1.0, ⟨0, 0, 0⟩, []⟩
          ⟨Vec2.new 0.0 0.0, Vec2.new 0.0 0.0, 1.0, ⟨0, 0, 0⟩, []⟩
        * Simulation.dist
          ⟨Vec2.new 0.0 0.0, Vec2.new 0.0 0.0, 1.0, ⟨0, 0, 0⟩, []⟩
          ⟨Vec2.new 0.0 0.0, Vec2.new 0.0 0.0, 1.0, ⟨0, 0, 0⟩, []⟩ ∧
      Simulation.dist
          ⟨Vec2.new 0.0 0.0, Vec2.new 0.0 0.0, 1.0, ⟨0, 0, 0⟩, []⟩
          ⟨Vec2.new 0.0 0.0, Vec2.new 0.0 0.0, 1.0, ⟨0, 0, 0⟩, []⟩
        * Simulation.dist
          ⟨Vec2.new 0.0 0.0, Vec2.new 0.0 0.0, 1.0, ⟨0, 0, 0⟩, []⟩
          ⟨Vec2.new 0.0 0.0, Vec2.new 0.0 0.0, 1.0, ⟨0, 0, 0⟩, []⟩ ≠ 0) :=
  ⟨claim_C8_no_division_by_zero.1 ⟨3.0, 4.0⟩,
    claim_C8_no_division_by_zero.2
      ⟨Vec2.new 0.0 0.0, Vec2.new 0.0 0.0, 1.0, ⟨0, 0, 0⟩, []⟩
      ⟨Vec2.new 0.0 0.0, Vec2.new 0.0 0.0, 1.0, ⟨0, 0, 0⟩, []⟩⟩

/-- C10: when two bodies occupy exactly the same position, the contribution
of one to the other's acceleration is exactly the zero vector: the
difference vector is zero, `normalize` returns it unchanged, and scaling
the zero vector by the finite clamped scalar gives zero. -/
theorem claim_C10_coincident_zero_force (bi bj : Body) (h : bi.pos = bj.pos) :
    Simulation.pairContribution bi bj = Vec2.new 0.0 0.0 := by
  have hdiff : bj.pos - bi.pos = (⟨0, 0⟩ : Vec2) := by
    rw [h]
    apply Vec2.ext <;> simp [Vec2.sub_def]
  show (bj.pos - bi.pos).normalize
      * (G * bj.mass / (Simulation.dist bi bj * Simulation.dist bi bj))
    = Vec2.new 0.0 0.0
  rw [hdiff, Vec2.normalize_of_magnitude_zero _ Vec2.magnitude_zero_vec]
  apply Vec2.ext <;> simp [Vec2.smul_def, Vec2.new] <;> norm_num

theorem claim_C10_witness :
    Simulation.pairContribution
        ⟨Vec2.new 7.0 (-2.0), Vec2.new 1.0 0.0, 70.0, ⟨255, 0, 0⟩, []⟩
        ⟨Vec2.new 7.0 (-2.0), Vec2.new 0.0 3.0, 30.0, ⟨0, 0, 255⟩, []⟩
      = Vec2.new 0.0 0.0 :=
  claim_C10_coincident_zero_force
    ⟨Vec2.new 7.0 (-2.0), Vec2.new 1.0 0.0, 70.0, ⟨255, 0, 0⟩, []⟩
    ⟨Vec2.new 7.0 (-2.0), Vec2.new 0.0 3.0, 30.0, ⟨0, 0, 255⟩, []⟩
    rfl

/-- C1: one `step` call updates body `i` by first moving the position with
the pre-step accelerations (`pos + vel*dt + a_old*(0.5*dt²)`), then
recomputing accelerations on the fully updated positions
(`stepPositions`), then averaging old and new acceleration into the
velocity, and finally appending the finalized new position to the trail
exactly once. -/
theorem claim_C1_step_is_velocity_verlet (s : Simulation) (i : ℕ)
    (h : i < s.bodies.length) :
    ((s.step).bodies.getD i default).pos
        = (s.bodies.getD i default).pos + (s.bodies.getD i default).vel * s.dt
          + (s.compute_accelerations).getD i default * (0.5 * s.dt * s.dt)
    ∧ ((s.step).bodies.getD i default).vel
        = (s.bodies.getD i default).vel
          + ((s.compute_accelerations).getD i default
             + ((s.stepPositions s.compute_accelerations).compute_accelerations).getD i default)
            * (0.5 * s.dt)
    ∧ ((s.step).bodies.getD i default).trail
        = (s.bodies.getD i default).trail
          ++ [((s.step).bodies.getD i default).pos] := by
  have h1 : i < (s.stepPositions s.compute_accelerations).bodies.length := by
    rw [Simulation.stepPositions_length]
    exact h
  have hmid : (s.stepPositions s.compute_accelerations).bodies.getD i default
      = { s.bodies.getD i default with
          pos := (s.bodies.getD i default).pos + (s.bodies.getD i default).vel * s.dt
            + (s.compute_accelerations).getD i default * (0.5 * s.dt * s.dt) } :=
    getD_mapIdx _ _ i default h
  have hstep : (s.step).bodies.getD i default
      = { (s.stepPositions s.compute_accelerations).bodies.getD i default with
          vel := ((s.stepPositions s.compute_accelerations).bodies.getD i default).vel
            + ((s.compute_accelerations).getD i default
               + ((s.stepPositions s.compute_accelerations).compute_accelerations).getD i default)
              * (0.5 * s.dt),
          trail := ((s.stepPositions s.compute_accelerations).bodies.getD i default).trail
            ++ [((s.stepPositions s.compute_accelerations).bodies.getD i default).pos] } :=
    getD_mapIdx _ _ i default h1
  rw [hstep, hmid]
  exact ⟨rfl, rfl, rfl⟩

theorem claim_C1_witness :
    0 < Simulation.new.bodies.length ∧
    (((Simulation.new.step).bodies.getD 0 default).pos
        = (Simulation.new.bodies.getD 0 default).pos
          + (Simulation.new.bodies.getD 0 default).vel * Simulation.new.dt
          + (Simulation.new.compute_accelerations).getD 0 default
            * (0.5 * Simulation.new.dt * Simulation.new.dt)
    ∧ ((Simulation.new.step).bodies.getD 0 default).vel
        = (Simulation.new.bodies.getD 0 default).vel
          + ((Simulation.new.compute_accelerations).getD 0 default
             + ((Simulation.new.stepPositions
                  Simulation.new.compute_accelerations).compute_accelerations).getD 0 default)
            * (0.5 * Simulation.new.dt)
    ∧ ((Simulation.new.step).bodies.getD 0 default).trail
        = (Simulation.new.bodies.getD 0 default).trail
          ++ [((Simulation.new.step).bodies.getD 0 default).pos]) :=
  ⟨by simp [Simulation.new],
    claim_C1_step_is_velocity_verlet Simulation.new 0 (by simp [Simulation.new])⟩

/-- C2: `step` is a pure function of the simulation state — two calls on
two identical independent copies of a state produce identical resulting
positions and velocities for every body. -/
theorem claim_C2_step_deterministic (s t : Simulation) (h : s = t) :
    (s.step).bodies.map Body.pos = (t.step).bodies.map Body.pos ∧
    (s.step).bodies.map Body.vel = (t.step).bodies.map Body.vel := by
  subst h
  exact ⟨rfl, rfl⟩

theorem claim_C2_witness :
    (Simulation.new.step).bodies.map Body.pos
        = (Simulation.new.step).bodies.map Body.pos ∧
    (Simulation.new.step).bodies.map Body.vel
        = (Simulation.new.step).bodies.map Body.vel :=
  claim_C2_step_deterministic Simulation.new Simulation.new rfl

/-- C7: every state reachable from the hard-coded three-body initial
configuration by iterating `step` keeps the original masses `70, 100, 30`
(all strictly positive), the original colours, and exactly three bodies —
`step` only ever rewrites `pos`, `vel` and `trail`. -/
theorem claim_C7_reachable_invariants (n : ℕ) :
    ((Simulation.step)^[n] Simulation.new).bodies.map Body.mass
        = [(70.0 : ℝ), 100.0, 30.0] ∧
    ((Simulation.step)^[n] Simulation.new).bodies.map Body.color
        = [⟨255, 0, 0⟩, ⟨0, 255, 0⟩, ⟨0, 0, 255⟩] ∧
    ((Simulation.step)^[n] Simulation.new).bodies.length = 3 ∧
    List.Forall (fun b => 0 < b.mass)
      ((Simulation.step)^[n] Simulation.new).bodies := by
  induction n with
  | zero =>
    rw [Function.iterate_zero_apply]
    refine ⟨rfl, rfl, rfl, ?_⟩
    norm_num [Simulation.new, List.forall_cons]
  | succ n ih =>
    rw [Function.iterate_succ_apply']
    obtain ⟨h1, h2, h3, h4⟩ := ih
    refine ⟨?_, ?_, ?_, ?_⟩
    · rw [Simulation.step_map_mass, h1]
    · rw [Simulation.step_map_color, h2]
    · rw [Simulation.step_length, h3]
    · exact forall_mass_pos_of_map ((Simulation.step_map_mass _).trans h1)
        (by norm_num [List.forall_cons])

theorem new_dt_pos : 0 < Simulation.new.dt := by
  norm_num [Simulation.new]

/-- C9: the driver loop `while accumulator >= dt { step(); accumulator -= dt }`
terminates (it is a total function here, by well-founded recursion on
`⌊accumulator / dt⌋`), and when it exits the leftover accumulator is
strictly less than one `dt`; `dt` itself is unchanged. -/
theorem claim_C9_update_loop_drains (s : Simulation) (hdt : 0 < s.dt) :
    (s.updateLoop hdt).accumulator < s.dt ∧ (s.updateLoop hdt).dt = s.dt :=
  have h := Simulation.updateLoop_spec (Nat.floor (s.accumulator / s.dt)) s hdt le_rfl
  ⟨h.2, h.1⟩

theorem claim_C9_witness :
    0 < Simulation.new.dt ∧
    (Simulation.new.updateLoop new_dt_pos).accumulator < Simulation.new.dt :=
  ⟨new_dt_pos, (claim_C9_update_loop_drains Simulation.new new_dt_pos).1⟩
